import Mathlib

/-!
Verification model of the `tagger` server routes (`src/server/routes/caption.js`
and the download routes). Filenames and file contents are `String`s; a directory
is an association list from filename to content; the external captioning model
(sharp metadata read + OpenAI chat completion) is abstracted as an oracle
returning either the first completion's content or a per-file error message.
-/

namespace Tagger

/-- Whitespace test used by the model of JavaScript `String.prototype.trim`. -/
def wsChar (c : Char) : Bool := c.isWhitespace

/-- Model of JS `trim` on the character list: drop whitespace from both ends. -/
def trimChars (cs : List Char) : List Char :=
  List.rdropWhile wsChar (List.dropWhile wsChar cs)

/-- Model of JS `String.prototype.trim`. -/
def jsTrim (s : String) : String := String.mk (trimChars s.data)

/-- Model of JS `String.prototype.toLowerCase` (ASCII-adequate). -/
def jsToLower (s : String) : String := String.mk (s.data.map Char.toLower)

/-- Index of the last `.` in a character list, if any. -/
def lastDotPos : List Char → Option Nat
  | [] => none
  | c :: rest =>
    match lastDotPos rest with
    | some n => some (n + 1)
    | none => if c = '.' then some 0 else none

/-- Model of Node `path.extname` for a plain basename: the substring from the
last dot to the end, except that a leading dot (dotfile) yields `""`. -/
def extnameOf (f : String) : String :=
  match lastDotPos f.data with
  | none => ""
  | some 0 => ""
  | some n => String.mk (f.data.drop n)

/-- Model of Node `path.parse(f).name`: the basename with the extension removed. -/
def parseNameOf (f : String) : String :=
  match lastDotPos f.data with
  | none => f
  | some 0 => f
  | some n => String.mk (f.data.take n)

/-- The image-extension allow-list used by the caption, status and download routes. -/
def imageExts : List String := [".jpg", ".jpeg", ".png", ".gif", ".webp", ".bmp"]

/-- A file qualifies as an image when its lower-cased extension is allow-listed. -/
def isImageFile (f : String) : Bool := imageExts.contains (jsToLower (extnameOf f))

/-- A file is a caption file when its lower-cased extension is `.txt`. -/
def isTxtFile (f : String) : Bool := jsToLower (extnameOf f) == ".txt"

/-- The caption filename written for an image: basename plus `.txt`. -/
def txtName (f : String) : String := parseNameOf f ++ ".txt"

/-- Contiguous-sublist test on character lists, modelling JS `String.prototype.includes`. -/
def includesChars (needle : List Char) : List Char → Bool
  | [] => needle.isEmpty
  | c :: rest => needle.isPrefixOf (c :: rest) || includesChars needle rest

/-- Model of JS `hay.includes(needle)`. -/
def jsIncludes (hay needle : String) : Bool := includesChars needle.data hay.data

/-- Accumulator-based splitting of a character list at commas. -/
def splitCommaAux : List Char → List Char → List String
  | [], acc => [String.mk acc.reverse]
  | c :: rest, acc =>
    if c = ',' then String.mk acc.reverse :: splitCommaAux rest []
    else splitCommaAux rest (c :: acc)

/-- Model of JS `s.split(',')`. -/
def jsSplitComma (s : String) : List String := splitCommaAux s.data []

/-- Tag list extracted from the global-tags string: split on commas, trim each
piece, drop empty pieces (from `add-global-tags`). -/
def splitTags (globalTags : String) : List String :=
  ((jsSplitComma (jsTrim globalTags)).map jsTrim).filter (fun t => t ≠ "")

/-- The `add-global-tags` per-file loop body: append `", tag"` for each tag not
already contained in the caption accumulated so far. -/
def addTagsToCaption (tags : List String) (caption : String) : String :=
  tags.foldl (fun cap tag => if jsIncludes cap tag then cap else cap ++ ", " ++ tag) caption

/-- Full `add-global-tags` update of one caption file: trim the stored content,
then run the tag-append loop. -/
def updateCaptionFile (tags : List String) (content : String) : String :=
  addTagsToCaption tags (jsTrim content)

/-- A directory: an association list from filename to file content. -/
abbrev Dir := List (String × String)

/-- Model of `fs.writeFileSync`: overwrite the entry when the name exists,
otherwise append a new entry. -/
def writeFile (dir : Dir) (name content : String) : Dir :=
  if dir.any (fun e => e.1 = name) then
    dir.map (fun e => if e.1 = name then (name, content) else e)
  else dir ++ [(name, content)]

/-- The filesystem state relevant to one session: the upload directory and the
results directory, each `none` when absent. Upload files are identified by name
only (their bytes are never read by the modelled logic). -/
structure SessionFS where
  uploads : Option (List String)
  results : Option Dir
deriving DecidableEq

/-- An HTTP response of the modelled routes. -/
inductive Resp where
  | notFound (msg : String)
  | badRequest (msg : String)
  | ok (results : List (String × String)) (errors : List (String × String))
deriving DecidableEq

/-- The qualifying image files of an upload listing, in directory order. -/
def qualifyingImages (files : List String) : List String :=
  files.filter isImageFile

/-- The caption persisted for a successful completion `content`: the trimmed
completion, with the trimmed global tags appended unconditionally as
`", <tags>"` when they are non-empty after trimming. -/
def finalCaption (globalTags content : String) : String :=
  if jsTrim globalTags = "" then jsTrim content
  else jsTrim content ++ ", " ++ jsTrim globalTags

/-- One per-file captioning step: consult the oracle (which models the sharp
metadata read and the OpenAI call, returning the first completion's content),
then build the persisted caption. -/
def processFile (oracle : String → Except String String) (globalTags : String)
    (file : String) : Except String String :=
  match oracle file with
  | .error e => .error e
  | .ok content => .ok (finalCaption globalTags content)

/-- Sequential processing of a file list: write each successful caption to
`<basename>.txt`, record each failure, and continue. Returns the final results
directory, the `results` array and the `errors` array. -/
def runFiles (oracle : String → Except String String) (globalTags : String) :
    List String → Dir → Dir × List (String × String) × List (String × String)
  | [], dir => (dir, [], [])
  | f :: rest, dir =>
    match processFile oracle globalTags f with
    | .ok caption =>
      let step := runFiles oracle globalTags rest (writeFile dir (txtName f) caption)
      (step.1, (f, caption) :: step.2.1, step.2.2)
    | .error e =>
      let step := runFiles oracle globalTags rest dir
      (step.1, step.2.1, (f, e) :: step.2.2)

/-- Group-by-group processing: each group is fully processed before the next
group starts, with the `results` and `errors` arrays accumulating across groups. -/
def runChunks (oracle : String → Except String String) (globalTags : String) :
    List (List String) → Dir → Dir × List (String × String) × List (String × String)
  | [], dir => (dir, [], [])
  | c :: cs, dir =>
    let s1 := runFiles oracle globalTags c dir
    let s2 := runChunks oracle globalTags cs s1.1
    (s2.1, s1.2.1 ++ s2.2.1, s1.2.2 ++ s2.2.2)

/-- Fuel-driven core of the fixed-size chunking loop
`for (let i = 0; i < files.length; i += size) chunks.push(files.slice(i, i + size))`. -/
def chunkListAux (n : Nat) : Nat → List String → List (List String)
  | _, [] => []
  | 0, x :: xs => [x :: xs]
  | fuel + 1, x :: xs => (x :: xs).take n :: chunkListAux n fuel ((x :: xs).drop n)

/-- Partition a list into consecutive groups of size `n` (last group possibly shorter). -/
def chunkList (n : Nat) (l : List String) : List (List String) :=
  chunkListAux n l.length l

/-- The processing core of `POST /api/caption/generate`: groups of size 5. -/
def generateRun (oracle : String → Except String String) (globalTags : String)
    (files : List String) (dir : Dir) :
    Dir × List (String × String) × List (String × String) :=
  runChunks oracle globalTags (chunkList 5 files) dir

/-- The processing core of `POST /api/caption/batch`: groups of size 3. -/
def batchRun (oracle : String → Except String String) (globalTags : String)
    (files : List String) (dir : Dir) :
    Dir × List (String × String) × List (String × String) :=
  runChunks oracle globalTags (chunkList 3 files) dir

/-- Model of `POST /api/caption/generate` (sessionId and apiKey assumed present;
they are request-validation only). -/
def generate (oracle : String → Except String String) (globalTags : String)
    (fs : SessionFS) : Resp × SessionFS :=
  match fs.uploads with
  | none => (.notFound "Session not found", fs)
  | some up =>
    let dir0 := fs.results.getD []
    let files := qualifyingImages up
    if files.length = 0 then
      (.badRequest "No image files found in session", ⟨fs.uploads, some dir0⟩)
    else
      let s := generateRun oracle globalTags files dir0
      (.ok s.2.1 s.2.2, ⟨fs.uploads, some s.1⟩)

/-- Model of JS `files[i]` for an integer index. -/
def jsIndex (files : List String) (i : Int) : Option String :=
  if i < 0 then none else files.get? i.toNat

/-- Model of `fileIndices.map(index => files[index]).filter(Boolean)`: out-of-range
indices give `undefined` and are dropped; `filter(Boolean)` would also drop an
empty-string name. -/
def selectIndices (files : List String) (idxs : List Int) : List String :=
  (idxs.map (jsIndex files)).filterMap (fun o => o.bind (fun s => if s = "" then none else some s))

/-- Model of `POST /api/caption/batch`. -/
def batch (oracle : String → Except String String) (globalTags : String)
    (fileIndices : Option (List Int)) (fs : SessionFS) : Resp × SessionFS :=
  match fs.uploads with
  | none => (.notFound "Session not found", fs)
  | some up =>
    let dir0 := fs.results.getD []
    let allFiles := qualifyingImages up
    let files := match fileIndices with
      | some idxs => if 0 < idxs.length then selectIndices allFiles idxs else allFiles
      | none => allFiles
    if files.length = 0 then
      (.badRequest "No image files found to process", ⟨fs.uploads, some dir0⟩)
    else
      let s := batchRun oracle globalTags files dir0
      (.ok s.2.1 s.2.2, ⟨fs.uploads, some s.1⟩)

/-- The `add-global-tags` update of a single directory entry: caption files get
the tag-append treatment, other files are untouched. -/
def tagUpdate (globalTags : String) (e : String × String) : String × String :=
  if isTxtFile e.1 then (e.1, updateCaptionFile (splitTags globalTags) e.2) else e

/-- Model of `POST /api/caption/add-global-tags`. -/
def addGlobalTags (globalTags : String) (fs : SessionFS) : Resp × SessionFS :=
  if jsTrim globalTags = "" then (.badRequest "Global tags are required", fs)
  else
    match fs.results with
    | none => (.notFound "Results not found for this session", fs)
    | some dir =>
      if ((dir.map Prod.fst).filter isTxtFile).length = 0 then
        (.badRequest "No caption files found for this session", fs)
      else
        let dir1 := dir.map (tagUpdate globalTags)
        (.ok (dir1.filter (fun e => isTxtFile e.1)) [], ⟨fs.uploads, some dir1⟩)

/-- Fuel-driven floor of the base-2 logarithm (`log2Go n n` is exact for `n ≥ 1`). -/
def log2Go : Nat → Nat → Nat
  | 0, _ => 0
  | fuel + 1, n => if n ≤ 1 then 0 else log2Go fuel (n / 2) + 1

/-- Floor of the base-2 logarithm, kernel-reducible. -/
def natLog2 (n : Nat) : Nat := log2Go n n

/-- Quotient, remainder and denominator of `(a * 2 ^ k) / b` for an integer shift `k`. -/
def rneDivQ (a b : Nat) (k : Int) : Nat × Nat × Nat :=
  if 0 ≤ k then (a * 2 ^ k.toNat / b, a * 2 ^ k.toNat % b, b)
  else (a / (b * 2 ^ (-k).toNat), a % (b * 2 ^ (-k).toNat), b * 2 ^ (-k).toNat)

/-- Round the exact quotient `q + r / d` to the nearest integer, ties to even. -/
def rneRound (q r d : Nat) : Nat :=
  if 2 * r < d then q
  else if d < 2 * r then q + 1
  else if q % 2 = 0 then q else q + 1

/-- Round the positive rational `a / b` to the nearest IEEE-754 binary64 value
(round to nearest, ties to even), returned as a pair `(m, e)` denoting the exact
value `m * 2 ^ e`. Valid for values within the normal range, which covers every
quantity arising in the progress computation for realistic directory sizes. -/
def rneRat (a b : Nat) : Nat × Int :=
  let k0 : Int := 52 + (natLog2 b : Int) - (natLog2 a : Int)
  let s0 := rneDivQ a b k0
  if s0.1 < 2 ^ 52 then
    let s1 := rneDivQ a b (k0 + 1)
    (rneRound s1.1 s1.2.1 s1.2.2, -(k0 + 1))
  else
    (rneRound s0.1 s0.2.1 s0.2.2, -k0)

/-- Floor of the nonnegative value `m * 2 ^ e`. -/
def pow2Floor (m : Nat) (e : Int) : Nat :=
  if 0 ≤ e then m * 2 ^ e.toNat else m / 2 ^ (-e).toNat

/-- Model of `Math.floor((p / t) * 100)` as evaluated by JavaScript: the division
and the multiplication are each correctly rounded binary64 operations. Requires
`0 < t`. -/
def jsProgress (p t : Nat) : Nat :=
  if p = 0 then 0
  else
    let q := rneRat p t
    let q2 := rneRat (100 * q.1) 1
    pow2Floor q2.1 (q2.2 + q.2)

/-- The JSON payload of `GET /api/caption/status/:sessionId`. -/
structure CapStatus where
  totalImages : Nat
  processedImages : Nat
  progress : Nat
  isComplete : Bool
deriving DecidableEq

/-- Model of `GET /api/caption/status/:sessionId`: `none` is the 404 response. -/
def captionStatus (fs : SessionFS) : Option CapStatus :=
  match fs.uploads with
  | none => none
  | some up =>
    let total := (qualifyingImages up).length
    let processed := (((fs.results.getD []).map Prod.fst).filter isTxtFile).length
    some
      { totalImages := total
        processedImages := processed
        progress := if 0 < total then jsProgress processed total else 0
        isComplete := decide (total ≤ processed) && decide (0 < total) }

/-- The caption files of a results directory (names only), in directory order. -/
def captionFilesOf (fs : SessionFS) : List String :=
  ((fs.results.getD []).map Prod.fst).filter isTxtFile

/-- Model of the `captionMap` lookup in `GET /api/download/all/:sessionId`:
object assignment in a forEach means the last caption file with a given
basename wins. -/
def captionLookup (captionFiles : List String) (base : String) : Option String :=
  (captionFiles.filter (fun cf => parseNameOf cf = base)).getLast?

/-- Entry names of the zip produced by `GET /api/download/all/:sessionId` for a
given `format` query value; `none` is the 404 response. -/
def zipEntries (format : String) (fs : SessionFS) : Option (List String) :=
  match fs.uploads with
  | none => none
  | some up =>
    let imageFiles := qualifyingImages up
    let capFiles := captionFilesOf fs
    if format = "separate" then
      some (imageFiles.map (fun f => "images/" ++ f) ++ capFiles.map (fun f => "captions/" ++ f))
    else if format = "paired" then
      some (imageFiles.flatMap (fun f =>
        (parseNameOf f ++ "/" ++ f) ::
          (match captionLookup capFiles (parseNameOf f) with
           | some cf => [parseNameOf f ++ "/" ++ cf]
           | none => [])))
    else if format = "flat" then
      some (imageFiles ++ capFiles)
    else
      some []

/-! ### Lemmas about the trim model -/

/-- A string is trimmed when the JS trim leaves its characters unchanged. -/
def Trimmed (s : String) : Prop := trimChars s.data = s.data

theorem dropWhile_of_rdropWhile_eq {p : Char → Bool} {l : List Char}
    (h : List.rdropWhile p l = l) : List.dropWhile p l.reverse = l.reverse := by
  rw [List.rdropWhile] at h
  simpa using congrArg List.reverse h

theorem rdropWhile_of_dropWhile_rev {p : Char → Bool} {l : List Char}
    (h : List.dropWhile p l.reverse = l.reverse) : List.rdropWhile p l = l := by
  rw [List.rdropWhile, h, List.reverse_reverse]

theorem trimChars_eq_self_iff {l : List Char} :
    trimChars l = l ↔ List.dropWhile wsChar l = l ∧ List.rdropWhile wsChar l = l := by
  constructor
  · intro h
    have hsub : List.dropWhile wsChar l <:+ l := List.dropWhile_suffix _
    have hpre : List.rdropWhile wsChar (List.dropWhile wsChar l) <+: List.dropWhile wsChar l :=
      List.rdropWhile_prefix _ _
    rw [trimChars] at h
    rw [h] at hpre
    have hlen : (List.dropWhile wsChar l).length = l.length :=
      Nat.le_antisymm hsub.length_le hpre.length_le
    have hdrop : List.dropWhile wsChar l = l := by
      have := hpre.eq_of_length (hlen.symm)
      exact this.symm
    refine ⟨hdrop, ?_⟩
    rw [hdrop] at h
    exact h
  · intro ⟨h1, h2⟩
    rw [trimChars, h1, h2]

theorem dropWhile_rdropWhile {p : Char → Bool} {l : List Char}
    (h : List.dropWhile p l = l) :
    List.dropWhile p (List.rdropWhile p l) = List.rdropWhile p l := by
  rcases heq : List.rdropWhile p l with _ | ⟨c, rest⟩
  · rfl
  · have hpre : List.rdropWhile p l <+: l := List.rdropWhile_prefix _ _
    rw [heq] at hpre
    obtain ⟨t, ht⟩ := hpre
    have hl : l = c :: (rest ++ t) := by rw [← ht]; simp
    have hc : ¬ p c := by
      intro hp
      rw [hl, List.dropWhile_cons, if_pos hp] at h
      have hsuf : (List.dropWhile p (rest ++ t)).length ≤ (rest ++ t).length :=
        (List.dropWhile_suffix p).length_le
      rw [h] at hsuf
      simp at hsuf
    rw [List.dropWhile_cons, if_neg hc]

theorem trimChars_idem (l : List Char) : trimChars (trimChars l) = trimChars l := by
  rw [trimChars_eq_self_iff]
  constructor
  · exact dropWhile_rdropWhile (List.dropWhile_idempotent _ _)
  · exact List.rdropWhile_idempotent _ _

theorem trimmed_jsTrim (s : String) : Trimmed (jsTrim s) := trimChars_idem s.data

theorem jsTrim_eq_self {s : String} (h : Trimmed s) : jsTrim s = s := by
  apply String.ext
  exact h

theorem trimChars_append {a b : List Char} (ha : trimChars a = a) (hb : trimChars b = b)
    (hbne : b ≠ []) : trimChars (a ++ b) = a ++ b := by
  obtain ⟨ha1, ha2⟩ := trimChars_eq_self_iff.mp ha
  obtain ⟨hb1, hb2⟩ := trimChars_eq_self_iff.mp hb
  rw [trimChars_eq_self_iff]
  constructor
  · rw [List.dropWhile_append, ha1]
    rcases a with _ | ⟨c, rest⟩
    · simpa using hb1
    · simp
  · apply rdropWhile_of_dropWhile_rev
    rw [List.reverse_append, List.dropWhile_append, dropWhile_of_rdropWhile_eq hb2]
    have : b.reverse.isEmpty = false := by
      simpa [List.isEmpty_iff] using hbne
    rw [this]
    simp

theorem trimmed_append_tag {cap t : String} (hc : Trimmed cap) (ht : Trimmed t)
    (htne : t ≠ "") : Trimmed (cap ++ ", " ++ t) := by
  have hdata : (cap ++ ", " ++ t).data = cap.data ++ (", " ++ t).data := by simp
  unfold Trimmed
  rw [hdata]
  apply trimChars_append hc
  · have h2 : (", " ++ t).data = ',' :: ' ' :: t.data := rfl
    unfold Trimmed at ht
    rw [h2, trimChars_eq_self_iff]
    constructor
    · rw [List.dropWhile_cons]
      have hcws : wsChar ',' = false := by decide
      simp [hcws]
    · apply rdropWhile_of_dropWhile_rev
      have hrev : (',' :: ' ' :: t.data).reverse = t.data.reverse ++ [' ', ','] := by simp
      rw [hrev, List.dropWhile_append,
        dropWhile_of_rdropWhile_eq (trimChars_eq_self_iff.mp ht).2]
      have hne : t.data ≠ [] := fun hh => htne (String.ext hh)
      have hemp : t.data.reverse.isEmpty = false := by
        simpa [List.isEmpty_iff] using hne
      rw [hemp]
      simp
  · intro hh
    have hl : (", " ++ t).data = [] := by rw [hh]
    simp at hl

/-! ### Lemmas about the substring model -/

theorem includesChars_iff {needle hay : List Char} :
    includesChars needle hay = true ↔ needle <:+: hay := by
  induction hay with
  | nil =>
    simp [includesChars, List.isEmpty_iff]
  | cons c rest ih =>
    rw [includesChars, List.infix_cons_iff]
    simp [ih]

theorem jsIncludes_iff {hay needle : String} :
    jsIncludes hay needle = true ↔ needle.data <:+: hay.data := includesChars_iff

theorem jsIncludes_append_tag (cap t : String) :
    jsIncludes (cap ++ ", " ++ t) t = true := by
  rw [jsIncludes_iff]
  have h : (cap ++ ", " ++ t).data = (cap ++ ", ").data ++ t.data := by simp
  rw [h]
  exact (List.suffix_append _ _).isInfix

theorem jsIncludes_mono_append {cap tag : String} (x : String)
    (h : jsIncludes cap tag = true) : jsIncludes (cap ++ x) tag = true := by
  rw [jsIncludes_iff] at h ⊢
  have hd : (cap ++ x).data = cap.data ++ x.data := by simp
  rw [hd]
  exact h.trans ((List.prefix_append _ _).isInfix)

/-! ### Lemmas about the tag-append fold -/

theorem addTagsToCaption_nil (cap : String) : addTagsToCaption [] cap = cap := rfl

theorem addTagsToCaption_cons (t : String) (tags : List String) (cap : String) :
    addTagsToCaption (t :: tags) cap =
      addTagsToCaption tags (if jsIncludes cap t then cap else cap ++ ", " ++ t) := rfl

theorem addTagsToCaption_trimmed {tags : List String} {cap : String}
    (hcap : Trimmed cap) (htags : ∀ t ∈ tags, Trimmed t ∧ t ≠ "") :
    Trimmed (addTagsToCaption tags cap) := by
  induction tags generalizing cap with
  | nil => exact hcap
  | cons t ts ih =>
    rw [addTagsToCaption_cons]
    by_cases h : jsIncludes cap t = true
    · rw [if_pos h]
      exact ih hcap (fun u hu => htags u (List.mem_cons_of_mem _ hu))
    · rw [if_neg h]
      have ht := htags t (List.mem_cons_self _ _)
      exact ih (trimmed_append_tag hcap ht.1 ht.2) (fun u hu => htags u (List.mem_cons_of_mem _ hu))

theorem jsIncludes_addTagsToCaption {tags : List String} {cap tag : String}
    (h : jsIncludes cap tag = true) :
    jsIncludes (addTagsToCaption tags cap) tag = true := by
  induction tags generalizing cap with
  | nil => exact h
  | cons t ts ih =>
    rw [addTagsToCaption_cons]
    by_cases hc : jsIncludes cap t = true
    · rw [if_pos hc]; exact ih h
    · rw [if_neg hc]
      exact ih (by
        have := jsIncludes_mono_append (", " ++ t) h
        simpa [String.append_assoc] using this)

theorem addTagsToCaption_includes_all {tags : List String} (cap : String) :
    ∀ t ∈ tags, jsIncludes (addTagsToCaption tags cap) t = true := by
  induction tags generalizing cap with
  | nil => intro t ht; cases ht
  | cons u ts ih =>
    intro t ht
    rcases List.mem_cons.mp ht with h | h
    · subst h
      rw [addTagsToCaption_cons]
      by_cases hc : jsIncludes cap t = true
      · rw [if_pos hc]; exact jsIncludes_addTagsToCaption hc
      · rw [if_neg hc]
        exact jsIncludes_addTagsToCaption (jsIncludes_append_tag cap t)
    · rw [addTagsToCaption_cons]
      exact ih _ t h

theorem addTagsToCaption_of_all_included {tags : List String} {cap : String}
    (h : ∀ t ∈ tags, jsIncludes cap t = true) : addTagsToCaption tags cap = cap := by
  induction tags with
  | nil => rfl
  | cons t ts ih =>
    rw [addTagsToCaption_cons, if_pos (h t (List.mem_cons_self _ _))]
    exact ih (fun u hu => h u (List.mem_cons_of_mem _ hu))

theorem splitTags_trimmed {gt t : String} (h : t ∈ splitTags gt) : Trimmed t ∧ t ≠ "" := by
  unfold splitTags at h
  obtain ⟨hmem, hne⟩ := List.mem_filter.mp h
  obtain ⟨x, _, hx⟩ := List.mem_map.mp hmem
  refine ⟨?_, by simpa using hne⟩
  rw [← hx]
  exact trimmed_jsTrim x

theorem updateCaptionFile_idem (gt c : String) :
    updateCaptionFile (splitTags gt) (updateCaptionFile (splitTags gt) c) =
      updateCaptionFile (splitTags gt) c := by
  unfold updateCaptionFile
  have htags : ∀ t ∈ splitTags gt, Trimmed t ∧ t ≠ "" := fun t ht => splitTags_trimmed ht
  have hr : Trimmed (addTagsToCaption (splitTags gt) (jsTrim c)) :=
    addTagsToCaption_trimmed (trimmed_jsTrim c) htags
  rw [jsTrim_eq_self hr]
  exact addTagsToCaption_of_all_included (addTagsToCaption_includes_all _)

/-! ### The add-global-tags endpoint -/

theorem tagUpdate_fst (gt : String) (e : String × String) : (tagUpdate gt e).1 = e.1 := by
  unfold tagUpdate
  split
  · rfl
  · rfl

theorem tagUpdate_idem (gt : String) (e : String × String) :
    tagUpdate gt (tagUpdate gt e) = tagUpdate gt e := by
  unfold tagUpdate
  by_cases h : isTxtFile e.1 = true
  · simp only [if_pos h, updateCaptionFile_idem]
  · simp only [if_neg h]

theorem addGlobalTags_eq_ok {gt : String} {fs : SessionFS} {dir : Dir}
    (hgt : jsTrim gt ≠ "") (hres : fs.results = some dir)
    (hne : ((dir.map Prod.fst).filter isTxtFile).length ≠ 0) :
    addGlobalTags gt fs =
      (Resp.ok ((dir.map (tagUpdate gt)).filter (fun e => isTxtFile e.1)) [],
        ⟨fs.uploads, some (dir.map (tagUpdate gt))⟩) := by
  unfold addGlobalTags
  rw [hres, if_neg hgt]
  simp only [if_neg hne]

theorem addGlobalTags_ok_inv {gt : String} {fs : SessionFS}
    {rs es : List (String × String)}
    (h : (addGlobalTags gt fs).1 = Resp.ok rs es) :
    jsTrim gt ≠ "" ∧ ∃ dir, fs.results = some dir ∧
      ((dir.map Prod.fst).filter isTxtFile).length ≠ 0 := by
  by_cases h1 : jsTrim gt = ""
  · rw [addGlobalTags, if_pos h1] at h
    cases h
  · refine ⟨h1, ?_⟩
    rcases hres : fs.results with _ | dir
    · rw [addGlobalTags, if_neg h1, hres] at h
      cases h
    · refine ⟨dir, rfl, ?_⟩
      intro hzero
      rw [addGlobalTags, if_neg h1, hres] at h
      simp only [if_pos hzero] at h
      cases h

/-- C2: when the results directory exists with at least one `.txt` caption file
and the tag string is non-empty after trimming, `add-global-tags` splits the tag
string on commas, trims the pieces and drops empty ones (`splitTags`), and
rewrites every caption file by appending `", <tag>"`, in order, exactly for the
tags not already contained as a literal substring of the caption's current
(progressively updated) content; tags already contained change nothing, and the
scenario of tags `"a, b"` on a caption containing `"a"` yields `"a, b"`. -/
theorem C2_add_global_tags_update (gt : String) (fs : SessionFS) (dir : Dir)
    (hgt : jsTrim gt ≠ "") (hres : fs.results = some dir)
    (hne : ((dir.map Prod.fst).filter isTxtFile).length ≠ 0) :
    addGlobalTags gt fs =
      (Resp.ok ((dir.map (tagUpdate gt)).filter (fun e => isTxtFile e.1)) [],
        ⟨fs.uploads, some (dir.map (tagUpdate gt))⟩)
    ∧ (∀ e, isTxtFile e.1 = true →
        tagUpdate gt e = (e.1, addTagsToCaption (splitTags gt) (jsTrim e.2)))
    ∧ (∀ cap, (∀ t ∈ splitTags gt, jsIncludes cap t = true) →
        addTagsToCaption (splitTags gt) cap = cap)
    ∧ updateCaptionFile (splitTags "a, b") "a" = "a, b" := by
  refine ⟨addGlobalTags_eq_ok hgt hres hne, ?_, ?_, by decide⟩
  · intro e he
    unfold tagUpdate
    rw [if_pos he]
    rfl
  · intro cap hc
    exact addTagsToCaption_of_all_included hc

/-- Witness for C2 at a concrete state: one caption file `a.txt` containing
`"a"`, tag string `"a, b"`. -/
theorem C2_add_global_tags_update_witness :
    addGlobalTags "a, b" ⟨none, some [("a.txt", "a")]⟩ =
      (Resp.ok (([("a.txt", "a")].map (tagUpdate "a, b")).filter (fun e => isTxtFile e.1)) [],
        ⟨none, some ([("a.txt", "a")].map (tagUpdate "a, b"))⟩)
    ∧ (∀ e, isTxtFile e.1 = true →
        tagUpdate "a, b" e = (e.1, addTagsToCaption (splitTags "a, b") (jsTrim e.2)))
    ∧ (∀ cap, (∀ t ∈ splitTags "a, b", jsIncludes cap t = true) →
        addTagsToCaption (splitTags "a, b") cap = cap)
    ∧ updateCaptionFile (splitTags "a, b") "a" = "a, b" :=
  C2_add_global_tags_update "a, b" ⟨none, some [("a.txt", "a")]⟩ [("a.txt", "a")]
    (by decide) rfl (by decide)

/-- C3: re-running `add-global-tags` with the same tag string after a completed
(200) first run changes nothing: the second run returns the same response and
leaves every caption file with the same content the first run produced. -/
theorem C3_add_global_tags_idempotent (gt : String) (fs : SessionFS)
    (rs es : List (String × String))
    (h : (addGlobalTags gt fs).1 = Resp.ok rs es) :
    addGlobalTags gt (addGlobalTags gt fs).2 = addGlobalTags gt fs := by
  obtain ⟨hgt, dir, hres, hne⟩ := addGlobalTags_ok_inv h
  have h1 := addGlobalTags_eq_ok hgt hres hne
  rw [h1]
  have hfst : (dir.map (tagUpdate gt)).map Prod.fst = dir.map Prod.fst := by
    rw [List.map_map]
    exact List.map_congr_left (fun e _ => tagUpdate_fst gt e)
  have hne1 : (((dir.map (tagUpdate gt)).map Prod.fst).filter isTxtFile).length ≠ 0 := by
    rw [hfst]
    exact hne
  have hres2 : (SessionFS.mk fs.uploads (some (dir.map (tagUpdate gt)))).results =
      some (dir.map (tagUpdate gt)) := rfl
  have h2 := addGlobalTags_eq_ok hgt hres2 hne1
  rw [h2]
  have hidem : (dir.map (tagUpdate gt)).map (tagUpdate gt) = dir.map (tagUpdate gt) := by
    rw [List.map_map]
    exact List.map_congr_left (fun e _ => tagUpdate_idem gt e)
  rw [hidem]

/-- Witness for C3 at a concrete state: caption file `a.txt` containing `"x"`,
tag string `"a, b"`; the first run returns 200 and the second run reproduces it. -/
theorem C3_add_global_tags_idempotent_witness :
    addGlobalTags "a, b" (addGlobalTags "a, b" ⟨none, some [("a.txt", "x")]⟩).2 =
      addGlobalTags "a, b" ⟨none, some [("a.txt", "x")]⟩ :=
  C3_add_global_tags_idempotent "a, b" ⟨none, some [("a.txt", "x")]⟩
    [("a.txt", "x, a, b")] [] (by decide)

/-! ### Lemmas about the chunking loop -/

theorem chunkListAux_fuel {n : Nat} (hn : 0 < n) :
    ∀ (f1 : Nat) (f2 : Nat) (l : List String), l.length ≤ f1 → l.length ≤ f2 →
      chunkListAux n f1 l = chunkListAux n f2 l := by
  intro f1
  induction f1 with
  | zero =>
    intro f2 l h1 _
    have : l = [] := List.length_eq_zero.mp (Nat.le_zero.mp h1)
    subst this
    cases f2 <;> rfl
  | succ f ih =>
    intro f2 l h1 h2
    match l with
    | [] => cases f2 <;> rfl
    | x :: xs =>
      match f2 with
      | 0 => simp at h2
      | g + 1 =>
        show ((x :: xs).take n :: chunkListAux n f ((x :: xs).drop n)) =
          ((x :: xs).take n :: chunkListAux n g ((x :: xs).drop n))
        congr 1
        have hd : ((x :: xs).drop n).length ≤ xs.length := by
          simp only [List.length_drop, List.length_cons]
          omega
        exact ih g _ (Nat.le_trans hd (Nat.lt_succ_iff.mp (Nat.lt_of_lt_of_le (Nat.lt_succ_of_le (Nat.le_refl _)) h1)))
          (Nat.le_trans hd (Nat.lt_succ_iff.mp (Nat.lt_of_lt_of_le (Nat.lt_succ_of_le (Nat.le_refl _)) h2)))

theorem chunkList_cons {n : Nat} (hn : 0 < n) (x : String) (xs : List String) :
    chunkList n (x :: xs) = (x :: xs).take n :: chunkList n ((x :: xs).drop n) := by
  show chunkListAux n (xs.length + 1) (x :: xs) = _
  show ((x :: xs).take n :: chunkListAux n xs.length ((x :: xs).drop n)) = _
  congr 1
  apply chunkListAux_fuel hn
  · simp only [List.length_drop, List.length_cons]
    omega
  · exact Nat.le_refl _

theorem chunkList_join {n : Nat} (hn : 0 < n) (l : List String) :
    (chunkList n l).flatten = l := by
  suffices H : ∀ (len : Nat) (m : List String), m.length = len → (chunkList n m).flatten = m from
    H l.length l rfl
  intro len
  induction len using Nat.strong_induction_on with
  | _ len ih =>
    intro m hm
    match m with
    | [] => rfl
    | x :: xs =>
      rw [chunkList_cons hn, List.flatten_cons,
        ih ((x :: xs).drop n).length ?_ _ rfl]
      · exact List.take_append_drop n (x :: xs)
      · subst hm
        simp only [List.length_drop, List.length_cons]
        omega

theorem chunkList_mem {n : Nat} (hn : 0 < n) {l : List String} {c : List String}
    (hc : c ∈ chunkList n l) : c ≠ [] ∧ c.length ≤ n := by
  suffices H : ∀ (len : Nat) (m : List String), m.length = len →
      ∀ d ∈ chunkList n m, d ≠ [] ∧ d.length ≤ n from H l.length l rfl c hc
  intro len
  induction len using Nat.strong_induction_on with
  | _ len ih =>
    intro m hm d hd
    match m with
    | [] => cases hd
    | x :: xs =>
      rw [chunkList_cons hn] at hd
      rcases List.mem_cons.mp hd with h | h
      · subst h
        constructor
        · match n with
          | k + 1 => simp
        · simp only [List.length_take]
          omega
      · exact ih ((x :: xs).drop n).length
          (by subst hm; simp only [List.length_drop, List.length_cons]; omega) _ rfl d h

theorem chunkList_dropLast_length {n : Nat} (hn : 0 < n) {l : List String}
    {c : List String} (hc : c ∈ (chunkList n l).dropLast) : c.length = n := by
  suffices H : ∀ (len : Nat) (m : List String), m.length = len →
      ∀ d ∈ (chunkList n m).dropLast, d.length = n from H l.length l rfl c hc
  intro len
  induction len using Nat.strong_induction_on with
  | _ len ih =>
    intro m hm d hd
    match m with
    | [] => cases hd
    | x :: xs =>
      rw [chunkList_cons hn] at hd
      rcases hrest : chunkList n ((x :: xs).drop n) with _ | ⟨r, rs⟩
      · rw [hrest] at hd
        cases hd
      · rw [hrest, List.dropLast_cons_of_ne_nil (by simp)] at hd
        rcases List.mem_cons.mp hd with h | h
        · subst h
          have hdrop : (x :: xs).drop n ≠ [] := by
            intro hdn
            rw [show chunkList n ((x :: xs).drop n) = chunkList n [] from by rw [hdn]] at hrest
            cases hrest
          simp only [List.length_take, List.length_cons]
          have hlt : n < xs.length + 1 := by
            by_contra hcon
            exact hdrop (List.drop_eq_nil_of_le (by simpa using Nat.le_of_not_lt hcon))
          omega
        · rw [← hrest] at h
          exact ih ((x :: xs).drop n).length
            (by subst hm; simp only [List.length_drop, List.length_cons]; omega) _ rfl d h

/-! ### Lemmas about the sequential runner -/

theorem runFiles_append (oracle : String → Except String String) (gt : String)
    (l1 l2 : List String) (dir : Dir) :
    runFiles oracle gt (l1 ++ l2) dir =
      ((runFiles oracle gt l2 (runFiles oracle gt l1 dir).1).1,
        (runFiles oracle gt l1 dir).2.1 ++ (runFiles oracle gt l2 (runFiles oracle gt l1 dir).1).2.1,
        (runFiles oracle gt l1 dir).2.2 ++ (runFiles oracle gt l2 (runFiles oracle gt l1 dir).1).2.2) := by
  induction l1 generalizing dir with
  | nil => rfl
  | cons f rest ih =>
    rcases hp : processFile oracle gt f with e | cap
    · simp only [List.cons_append, runFiles, List.append_eq, hp, ih, List.nil_append]
    · simp only [List.cons_append, runFiles, List.append_eq, hp, ih, List.nil_append]

theorem runChunks_eq (oracle : String → Except String String) (gt : String)
    (cs : List (List String)) (dir : Dir) :
    runChunks oracle gt cs dir = runFiles oracle gt cs.flatten dir := by
  induction cs generalizing dir with
  | nil => rfl
  | cons c rest ih =>
    rw [List.flatten_cons, runFiles_append, runChunks]
    simp only [ih]

theorem generateRun_eq (oracle : String → Except String String) (gt : String)
    (files : List String) (dir : Dir) :
    generateRun oracle gt files dir = runFiles oracle gt files dir := by
  unfold generateRun
  rw [runChunks_eq, chunkList_join (by norm_num)]

theorem batchRun_eq (oracle : String → Except String String) (gt : String)
    (files : List String) (dir : Dir) :
    batchRun oracle gt files dir = runFiles oracle gt files dir := by
  unfold batchRun
  rw [runChunks_eq, chunkList_join (by norm_num)]

/-- One directory update step of the processing loop. -/
def dirStep (oracle : String → Except String String) (gt : String) (d : Dir)
    (f : String) : Dir :=
  match processFile oracle gt f with
  | .ok c => writeFile d (txtName f) c
  | .error _ => d

/-- The caption a successfully processed file ends up with (junk default on failure). -/
def okCaption (oracle : String → Except String String) (gt f : String) : String :=
  (processFile oracle gt f).toOption.getD ""

/-- Whether the per-file step succeeded. -/
def processedOk (oracle : String → Except String String) (gt f : String) : Bool :=
  match processFile oracle gt f with
  | .ok _ => true
  | .error _ => false

/-- The `results` entry contributed by a file, if it succeeded. -/
def okEntry (oracle : String → Except String String) (gt g : String) :
    Option (String × String) :=
  match processFile oracle gt g with
  | .ok c => some (g, c)
  | .error _ => none

/-- The `errors` entry contributed by a file, if it failed. -/
def errEntry (oracle : String → Except String String) (gt g : String) :
    Option (String × String) :=
  match processFile oracle gt g with
  | .ok _ => none
  | .error e => some (g, e)

theorem runFiles_results_eq (oracle : String → Except String String) (gt : String)
    (l : List String) (dir : Dir) :
    (runFiles oracle gt l dir).2.1 = l.filterMap (okEntry oracle gt) := by
  induction l generalizing dir with
  | nil => rfl
  | cons f rest ih =>
    rcases hp : processFile oracle gt f with e | cap
    · simp only [runFiles, hp, List.filterMap_cons, okEntry, ih]
    · simp only [runFiles, hp, List.filterMap_cons, okEntry, ih]

theorem runFiles_errors_eq (oracle : String → Except String String) (gt : String)
    (l : List String) (dir : Dir) :
    (runFiles oracle gt l dir).2.2 = l.filterMap (errEntry oracle gt) := by
  induction l generalizing dir with
  | nil => rfl
  | cons f rest ih =>
    rcases hp : processFile oracle gt f with e | cap
    · simp only [runFiles, hp, List.filterMap_cons, errEntry, ih]
    · simp only [runFiles, hp, List.filterMap_cons, errEntry, ih]

theorem runFiles_dir_eq (oracle : String → Except String String) (gt : String)
    (l : List String) (dir : Dir) :
    (runFiles oracle gt l dir).1 = l.foldl (dirStep oracle gt) dir := by
  induction l generalizing dir with
  | nil => rfl
  | cons f rest ih =>
    rcases hp : processFile oracle gt f with e | cap
    · simp only [runFiles, hp, List.foldl_cons, dirStep, ih]
    · simp only [runFiles, hp, List.foldl_cons, dirStep, ih]

/-! ### Lemmas about directory writes -/

theorem writeFile_fresh {dir : Dir} {name : String} (content : String)
    (h : ∀ e ∈ dir, e.1 ≠ name) : writeFile dir name content = dir ++ [(name, content)] := by
  unfold writeFile
  have hfalse : dir.any (fun e => e.1 = name) = false := by
    rw [List.any_eq_false]
    intro e he
    simpa using h e he
  rw [hfalse]
  simp

theorem writeFile_names_sub {dir : Dir} {name content : String} {m : String}
    (h : m ∈ dir.map Prod.fst) : m ∈ (writeFile dir name content).map Prod.fst := by
  unfold writeFile
  split
  · rw [List.map_map]
    obtain ⟨e, he, hm⟩ := List.mem_map.mp h
    apply List.mem_map.mpr
    refine ⟨e, he, ?_⟩
    by_cases hc : e.1 = name
    · simp only [Function.comp_apply, if_pos hc]
      rw [← hm, hc]
    · simp only [Function.comp_apply, if_neg hc]
      exact hm
  · rw [List.map_append]
    exact List.mem_append_left _ h

theorem dirStep_names_sub (oracle : String → Except String String) (gt : String)
    {d : Dir} {f m : String} (h : m ∈ d.map Prod.fst) :
    m ∈ (dirStep oracle gt d f).map Prod.fst := by
  unfold dirStep
  rcases processFile oracle gt f with e | cap
  · exact h
  · exact writeFile_names_sub h

theorem foldl_dirStep_names_sub (oracle : String → Except String String) (gt : String)
    (l : List String) {dir : Dir} {m : String} (h : m ∈ dir.map Prod.fst) :
    m ∈ (l.foldl (dirStep oracle gt) dir).map Prod.fst := by
  induction l generalizing dir with
  | nil => exact h
  | cons f rest ih =>
    rw [List.foldl_cons]
    exact ih (dirStep_names_sub oracle gt h)

theorem foldl_dirStep_fresh (oracle : String → Except String String) (gt : String)
    {l : List String} {dir : Dir}
    (hnodup : (l.map txtName).Nodup)
    (hdisj : ∀ f ∈ l, ∀ e ∈ dir, e.1 ≠ txtName f) :
    l.foldl (dirStep oracle gt) dir =
      dir ++ (l.filter (processedOk oracle gt)).map
        (fun f => (txtName f, okCaption oracle gt f)) := by
  induction l generalizing dir with
  | nil => simp
  | cons f rest ih =>
    rw [List.foldl_cons, List.map_cons] at *
    rcases hc : processFile oracle gt f with e | c
    · have hstep : dirStep oracle gt dir f = dir := by
        unfold dirStep
        rw [hc]
      have hfilt : (f :: rest).filter (processedOk oracle gt) =
          rest.filter (processedOk oracle gt) := by
        rw [List.filter_cons]
        have : processedOk oracle gt f = false := by
          unfold processedOk
          rw [hc]
        simp [this]
      rw [hstep, hfilt]
      exact ih (List.Nodup.of_cons hnodup)
        (fun g hg e he => hdisj g (List.mem_cons_of_mem _ hg) e he)
    · have hstep : dirStep oracle gt dir f = dir ++ [(txtName f, c)] := by
        unfold dirStep
        rw [hc]
        exact writeFile_fresh c (fun e he => hdisj f (List.mem_cons_self _ _) e he)
      have hfilt : (f :: rest).filter (processedOk oracle gt) =
          f :: rest.filter (processedOk oracle gt) := by
        rw [List.filter_cons]
        have : processedOk oracle gt f = true := by
          unfold processedOk
          rw [hc]
        simp [this]
      rw [hstep, hfilt]
      have hrest := ih (List.Nodup.of_cons hnodup)
        (fun g hg (e : String × String) (he : e ∈ dir ++ [(txtName f, c)]) => by
          rcases List.mem_append.mp he with h1 | h1
          · exact hdisj g (List.mem_cons_of_mem _ hg) e h1
          · have he2 : e = (txtName f, c) := List.mem_singleton.mp h1
            rw [he2]
            intro hh
            have hh2 : txtName f = txtName g := hh
            refine (List.nodup_cons.mp hnodup).1 ?_
            rw [hh2]
            exact List.mem_map_of_mem txtName hg)
      rw [hrest, List.map_cons, List.append_assoc]
      have hcap : okCaption oracle gt f = c := by
        unfold okCaption
        rw [hc]
        rfl
      rw [hcap]
      rfl

/-! ### Lemmas about extensions and basenames -/

theorem lastDotPos_append (xs ys : List Char) :
    lastDotPos (xs ++ ys) =
      match lastDotPos ys with
      | some m => some (xs.length + m)
      | none => lastDotPos xs := by
  induction xs with
  | nil =>
    rcases h : lastDotPos ys with _ | m
    · rw [List.nil_append, h]
      rfl
    · rw [List.nil_append, h]
      simp
  | cons c rest ih =>
    show lastDotPos (c :: (rest ++ ys)) = _
    rw [lastDotPos, ih]
    rcases h : lastDotPos ys with _ | m
    · rfl
    · simp only [List.length_cons]
      congr 1
      omega

theorem lastDotPos_lt_length {l : List Char} {m : Nat} (h : lastDotPos l = some m) :
    m < l.length := by
  induction l generalizing m with
  | nil => cases h
  | cons c rest ih =>
    rw [lastDotPos] at h
    rcases hr : lastDotPos rest with _ | n
    · rw [hr] at h
      by_cases hc : c = '.'
      · rw [if_pos hc] at h
        cases h
        simp
      · rw [if_neg hc] at h
        cases h
    · rw [hr] at h
      cases h
      have := ih hr
      simp only [List.length_cons]
      omega

theorem image_lastDot {f : String} (h : isImageFile f = true) :
    ∃ m, lastDotPos f.data = some m ∧ 0 < m := by
  rcases hd : lastDotPos f.data with _ | m
  · unfold isImageFile extnameOf at h
    rw [hd] at h
    have h2 : imageExts.contains (jsToLower "") = true := h
    exact absurd h2 (by decide)
  · cases m with
    | zero =>
      unfold isImageFile extnameOf at h
      rw [hd] at h
      have h2 : imageExts.contains (jsToLower "") = true := h
      exact absurd h2 (by decide)
    | succ k => exact ⟨k + 1, rfl, Nat.succ_pos _⟩

theorem image_ne_empty {f : String} (h : isImageFile f = true) : f ≠ "" := by
  obtain ⟨m, hm, _⟩ := image_lastDot h
  have hlt := lastDotPos_lt_length hm
  intro hf
  rw [hf] at hlt
  simp at hlt

theorem parseName_data {f : String} {k : Nat} (hm : lastDotPos f.data = some (k + 1)) :
    (parseNameOf f).data = f.data.take (k + 1) := by
  unfold parseNameOf
  rw [hm]
  rfl

theorem extnameOf_eq {g : String} {k : Nat} (hk : lastDotPos g.data = some (k + 1)) :
    extnameOf g = String.mk (g.data.drop (k + 1)) := by
  unfold extnameOf
  rw [hk]
  rfl

theorem isTxtFile_txtName {f : String} (h : isImageFile f = true) :
    isTxtFile (txtName f) = true := by
  obtain ⟨m, hm, h0⟩ := image_lastDot h
  have hflen : m < f.data.length := lastDotPos_lt_length hm
  obtain ⟨j, hj⟩ : ∃ j, m = j + 1 := ⟨m - 1, by omega⟩
  subst hj
  have hdata : (txtName f).data = (parseNameOf f).data ++ ".txt".data := by
    unfold txtName
    simp
  have hdot : lastDotPos (txtName f).data = some (parseNameOf f).data.length := by
    rw [hdata, lastDotPos_append]
    rfl
  have hplen : (parseNameOf f).data.length = j + 1 := by
    rw [parseName_data hm, List.length_take]
    omega
  have hext : extnameOf (txtName f) = String.mk (".txt".data) := by
    have hk : lastDotPos (txtName f).data = some (j + 1) := by rw [hdot, hplen]
    have he := extnameOf_eq hk
    rw [he, hdata, ← hplen, List.drop_left]
  unfold isTxtFile
  rw [hext]
  decide

/-! ### Unfolding lemmas for the caption endpoints -/

theorem generate_notFound {oracle : String → Except String String} {gt : String}
    {fs : SessionFS} (h : fs.uploads = none) :
    generate oracle gt fs = (.notFound "Session not found", fs) := by
  unfold generate
  rw [h]

theorem generate_invalid {oracle : String → Except String String} {gt : String}
    {fs : SessionFS} {up : List String} (hup : fs.uploads = some up)
    (hz : (qualifyingImages up).length = 0) :
    generate oracle gt fs =
      (.badRequest "No image files found in session", ⟨fs.uploads, some (fs.results.getD [])⟩) := by
  unfold generate
  rw [hup]
  simp only [if_pos hz]

theorem generate_ok {oracle : String → Except String String} {gt : String}
    {fs : SessionFS} {up : List String} (hup : fs.uploads = some up)
    (hne : (qualifyingImages up).length ≠ 0) :
    generate oracle gt fs =
      (Resp.ok ((qualifyingImages up).filterMap (okEntry oracle gt))
        ((qualifyingImages up).filterMap (errEntry oracle gt)),
       ⟨fs.uploads,
        some ((qualifyingImages up).foldl (dirStep oracle gt) (fs.results.getD []))⟩) := by
  unfold generate
  rw [hup]
  simp only [if_neg hne, generateRun_eq, runFiles_results_eq, runFiles_errors_eq,
    runFiles_dir_eq]

theorem batch_notFound {oracle : String → Except String String} {gt : String}
    {idxs : Option (List Int)} {fs : SessionFS} (h : fs.uploads = none) :
    batch oracle gt idxs fs = (.notFound "Session not found", fs) := by
  unfold batch
  rw [h]

theorem batch_ok_none {oracle : String → Except String String} {gt : String}
    {fs : SessionFS} {up : List String} (hup : fs.uploads = some up)
    (hne : (qualifyingImages up).length ≠ 0) :
    batch oracle gt none fs = generate oracle gt fs := by
  rw [generate_ok hup hne]
  unfold batch
  rw [hup]
  simp only [if_neg hne, batchRun_eq, runFiles_results_eq, runFiles_errors_eq,
    runFiles_dir_eq]

theorem batch_ok_sel {oracle : String → Except String String} {gt : String}
    {fs : SessionFS} {up : List String} {idxs : List Int} (hup : fs.uploads = some up)
    (hidx : idxs ≠ [])
    (hne : (selectIndices (qualifyingImages up) idxs).length ≠ 0) :
    batch oracle gt (some idxs) fs =
      (Resp.ok ((selectIndices (qualifyingImages up) idxs).filterMap (okEntry oracle gt))
        ((selectIndices (qualifyingImages up) idxs).filterMap (errEntry oracle gt)),
       ⟨fs.uploads,
        some ((selectIndices (qualifyingImages up) idxs).foldl (dirStep oracle gt)
          (fs.results.getD []))⟩) := by
  unfold batch
  rw [hup]
  simp only [if_pos (List.length_pos.mpr hidx), if_neg hne, batchRun_eq,
    runFiles_results_eq, runFiles_errors_eq, runFiles_dir_eq]

theorem batch_invalid_sel {oracle : String → Except String String} {gt : String}
    {fs : SessionFS} {up : List String} {idxs : List Int} (hup : fs.uploads = some up)
    (hidx : idxs ≠ [])
    (hz : (selectIndices (qualifyingImages up) idxs).length = 0) :
    batch oracle gt (some idxs) fs =
      (.badRequest "No image files found to process", ⟨fs.uploads, some (fs.results.getD [])⟩) := by
  unfold batch
  rw [hup]
  simp only [if_pos (List.length_pos.mpr hidx), if_pos hz]

/-- An oracle that captions every file with the same completion. -/
def constOracle (c : String) : String → Except String String := fun _ => Except.ok c

/-- An oracle that fails on one designated file and captions every other file. -/
def failOn (bad e c : String) : String → Except String String :=
  fun f => if f = bad then Except.error e else Except.ok c

/-- C6: the chunking loop partitions the file list into consecutive fixed-size
groups whose concatenation is the original list, every group but possibly the
last has exactly the fixed size (none is empty), `generate` uses size 5 and
`batch` size 3, and processing the groups sequentially is the same as
processing the whole file list in order. -/
theorem C6_chunking (n : Nat) (hn : 0 < n) (oracle : String → Except String String)
    (gt : String) (l : List String) (dir : Dir) :
    (chunkList n l).flatten = l
    ∧ (∀ c ∈ chunkList n l, c ≠ [] ∧ c.length ≤ n)
    ∧ (∀ c ∈ (chunkList n l).dropLast, c.length = n)
    ∧ generateRun oracle gt l dir = runChunks oracle gt (chunkList 5 l) dir
    ∧ batchRun oracle gt l dir = runChunks oracle gt (chunkList 3 l) dir
    ∧ runChunks oracle gt (chunkList n l) dir = runFiles oracle gt l dir := by
  refine ⟨chunkList_join hn l, fun c hc => chunkList_mem hn hc,
    fun c hc => chunkList_dropLast_length hn hc, rfl, rfl, ?_⟩
  rw [runChunks_eq, chunkList_join hn]

/-- Witness for C6 at size 2 on a three-element list. -/
theorem C6_chunking_witness :
    (chunkList 2 ["a", "b", "c"]).flatten = ["a", "b", "c"]
    ∧ (∀ c ∈ chunkList 2 ["a", "b", "c"], c ≠ [] ∧ c.length ≤ 2)
    ∧ (∀ c ∈ (chunkList 2 ["a", "b", "c"]).dropLast, c.length = 2)
    ∧ generateRun (constOracle "x") "" ["a", "b", "c"] [] =
        runChunks (constOracle "x") "" (chunkList 5 ["a", "b", "c"]) []
    ∧ batchRun (constOracle "x") "" ["a", "b", "c"] [] =
        runChunks (constOracle "x") "" (chunkList 3 ["a", "b", "c"]) []
    ∧ runChunks (constOracle "x") "" (chunkList 2 ["a", "b", "c"]) [] =
        runFiles (constOracle "x") "" ["a", "b", "c"] [] :=
  C6_chunking 2 (by decide) (constOracle "x") "" ["a", "b", "c"] []

/-- C7: `POST /api/caption/generate` responds 404 when the session's upload
directory is absent and 400 when it exists but holds no qualifying image; in
both cases the stored files are unchanged (the 400 path merely ensures an empty
results directory exists) and the outcome is independent of the external
captioning oracle, i.e. no external call is observable. -/
theorem C7_generate_failures (oracle oracle2 : String → Except String String)
    (gt : String) (fs : SessionFS) :
    (fs.uploads = none →
      generate oracle gt fs = (Resp.notFound "Session not found", fs))
    ∧ (∀ up, fs.uploads = some up → (qualifyingImages up).length = 0 →
        generate oracle gt fs =
          (Resp.badRequest "No image files found in session",
            ⟨fs.uploads, some (fs.results.getD [])⟩))
    ∧ (fs.uploads = none → generate oracle gt fs = generate oracle2 gt fs)
    ∧ (∀ up, fs.uploads = some up → (qualifyingImages up).length = 0 →
        generate oracle gt fs = generate oracle2 gt fs) := by
  refine ⟨fun h => generate_notFound h, fun up hup hz => generate_invalid hup hz,
    fun h => ?_, fun up hup hz => ?_⟩
  · rw [generate_notFound h, generate_notFound h]
  · rw [generate_invalid hup hz, generate_invalid hup hz]

/-- Witness for C7: a missing session directory and a session directory holding
only a non-image file. -/
theorem C7_generate_failures_witness :
    generate (constOracle "x") "t" ⟨none, none⟩ =
      (Resp.notFound "Session not found", ⟨none, none⟩)
    ∧ generate (constOracle "x") "t" ⟨some ["notes.txt"], none⟩ =
      (Resp.badRequest "No image files found in session", ⟨some ["notes.txt"], some []⟩)
    ∧ generate (constOracle "x") "t" ⟨none, none⟩ =
      generate (failOn "a.jpg" "boom" "x") "t" ⟨none, none⟩
    ∧ generate (constOracle "x") "t" ⟨some ["notes.txt"], none⟩ =
      generate (failOn "a.jpg" "boom" "x") "t" ⟨some ["notes.txt"], none⟩ := by
  have h1 := C7_generate_failures (constOracle "x") (failOn "a.jpg" "boom" "x") "t" ⟨none, none⟩
  have h2 := C7_generate_failures (constOracle "x") (failOn "a.jpg" "boom" "x") "t"
    ⟨some ["notes.txt"], none⟩
  exact ⟨h1.1 rfl, h2.2.1 ["notes.txt"] rfl (by decide), h1.2.2.1 rfl,
    h2.2.2.2 ["notes.txt"] rfl (by decide)⟩

/-- C8: a per-file failure during batch captioning is recorded as a
`{file, error}` entry and does not abort the run: the endpoint still responds
200, its `errors` array lists exactly the failed files (in order) and its
`results` array exactly the successful ones, no name already stored in the
results directory disappears, and `batch` without indices behaves like
`generate`. -/
theorem C8_per_file_failure (oracle : String → Except String String) (gt : String)
    (fs : SessionFS) (up : List String) (f e : String)
    (hup : fs.uploads = some up) (hf : f ∈ qualifyingImages up)
    (herr : oracle f = .error e) :
    generate oracle gt fs =
      (Resp.ok ((qualifyingImages up).filterMap (okEntry oracle gt))
        ((qualifyingImages up).filterMap (errEntry oracle gt)),
       ⟨fs.uploads,
        some ((qualifyingImages up).foldl (dirStep oracle gt) (fs.results.getD []))⟩)
    ∧ (f, e) ∈ (qualifyingImages up).filterMap (errEntry oracle gt)
    ∧ (∀ m ∈ (fs.results.getD []).map Prod.fst,
        m ∈ ((qualifyingImages up).foldl (dirStep oracle gt)
          (fs.results.getD [])).map Prod.fst)
    ∧ batch oracle gt none fs = generate oracle gt fs := by
  have hne : (qualifyingImages up).length ≠ 0 := by
    intro hz
    rw [List.length_eq_zero.mp hz] at hf
    cases hf
  refine ⟨generate_ok hup hne, ?_, ?_, batch_ok_none hup hne⟩
  · apply List.mem_filterMap.mpr
    refine ⟨f, hf, ?_⟩
    unfold errEntry processFile
    rw [herr]
  · intro m hm
    exact foldl_dirStep_names_sub oracle gt _ hm

/-- Witness for C8: two images, the oracle fails on the first and succeeds on
the second; results directory starts with one stored caption. -/
theorem C8_per_file_failure_witness :
    generate (failOn "a.jpg" "boom" "cap") "" ⟨some ["a.jpg", "b.jpg"], some [("old.txt", "o")]⟩ =
      (Resp.ok ((qualifyingImages ["a.jpg", "b.jpg"]).filterMap
          (okEntry (failOn "a.jpg" "boom" "cap") ""))
        ((qualifyingImages ["a.jpg", "b.jpg"]).filterMap
          (errEntry (failOn "a.jpg" "boom" "cap") "")),
       ⟨some ["a.jpg", "b.jpg"],
        some ((qualifyingImages ["a.jpg", "b.jpg"]).foldl
          (dirStep (failOn "a.jpg" "boom" "cap") "") [("old.txt", "o")])⟩)
    ∧ ("a.jpg", "boom") ∈ (qualifyingImages ["a.jpg", "b.jpg"]).filterMap
        (errEntry (failOn "a.jpg" "boom" "cap") "")
    ∧ (∀ m ∈ ([("old.txt", "o")] : Dir).map Prod.fst,
        m ∈ ((qualifyingImages ["a.jpg", "b.jpg"]).foldl
          (dirStep (failOn "a.jpg" "boom" "cap") "") [("old.txt", "o")]).map Prod.fst)
    ∧ batch (failOn "a.jpg" "boom" "cap") "" none ⟨some ["a.jpg", "b.jpg"], some [("old.txt", "o")]⟩ =
      generate (failOn "a.jpg" "boom" "cap") "" ⟨some ["a.jpg", "b.jpg"], some [("old.txt", "o")]⟩ := by
  have h := C8_per_file_failure (failOn "a.jpg" "boom" "cap") ""
    ⟨some ["a.jpg", "b.jpg"], some [("old.txt", "o")]⟩ ["a.jpg", "b.jpg"] "a.jpg" "boom"
    rfl (by decide) rfl
  exact h

/-- C5: in both caption endpoints, a successfully processed file's persisted
caption is the trimmed completion, with the trimmed global tags appended
unconditionally as `", <tags>"` when non-empty after trimming (no dedup at
generation time), and exactly the trimmed completion otherwise; the response
lists that caption and — when caption filenames do not collide and the results
directory holds no prior captions — the file `<basename>.txt` stores it. -/
theorem C5_generation_caption (oracle : String → Except String String) (gt : String)
    (fs : SessionFS) (up : List String) (f c : String)
    (hup : fs.uploads = some up) (hf : f ∈ qualifyingImages up)
    (hok : oracle f = .ok c) :
    (f, finalCaption gt c) ∈ (qualifyingImages up).filterMap (okEntry oracle gt)
    ∧ (generate oracle gt fs).1 =
        Resp.ok ((qualifyingImages up).filterMap (okEntry oracle gt))
          ((qualifyingImages up).filterMap (errEntry oracle gt))
    ∧ (batch oracle gt none fs).1 = (generate oracle gt fs).1
    ∧ finalCaption gt c =
        (if jsTrim gt = "" then jsTrim c else jsTrim c ++ ", " ++ jsTrim gt)
    ∧ (((qualifyingImages up).map txtName).Nodup →
        (∀ m ∈ (fs.results.getD []).map Prod.fst, isTxtFile m = false) →
        (txtName f, finalCaption gt c) ∈ ((generate oracle gt fs).2.results.getD [])) := by
  have hne : (qualifyingImages up).length ≠ 0 := by
    intro hz
    rw [List.length_eq_zero.mp hz] at hf
    cases hf
  have hpf : processFile oracle gt f = .ok (finalCaption gt c) := by
    unfold processFile
    rw [hok]
  have hmem : (f, finalCaption gt c) ∈ (qualifyingImages up).filterMap (okEntry oracle gt) := by
    apply List.mem_filterMap.mpr
    refine ⟨f, hf, ?_⟩
    unfold okEntry
    rw [hpf]
  refine ⟨hmem, by rw [generate_ok hup hne], by rw [batch_ok_none hup hne], rfl, ?_⟩
  intro hnodup hfresh
  rw [generate_ok hup hne]
  show (txtName f, finalCaption gt c) ∈
    ((qualifyingImages up).foldl (dirStep oracle gt) (fs.results.getD []))
  have hdisj : ∀ g ∈ qualifyingImages up, ∀ e ∈ fs.results.getD [], e.1 ≠ txtName g := by
    intro g hg e he hcon
    have himg : isImageFile g = true := (List.mem_filter.mp hg).2
    have h1 := hfresh e.1 (List.mem_map_of_mem Prod.fst he)
    rw [hcon, isTxtFile_txtName himg] at h1
    cases h1
  rw [foldl_dirStep_fresh oracle gt hnodup hdisj]
  apply List.mem_append_right
  have hfil : f ∈ (qualifyingImages up).filter (processedOk oracle gt) := by
    apply List.mem_filter.mpr
    refine ⟨hf, ?_⟩
    unfold processedOk
    rw [hpf]
  have hcap : okCaption oracle gt f = finalCaption gt c := by
    unfold okCaption
    rw [hpf]
    rfl
  have hm2 := List.mem_map_of_mem (fun g => (txtName g, okCaption oracle gt g)) hfil
  simpa [hcap] using hm2

/-- Witness for C5: one image, completion `"tag1, cat"`, global tags `"cat"`;
the persisted caption is `"tag1, cat, cat"` — the tag is appended even though
it already occurs in the completion. -/
theorem C5_generation_caption_witness :
    ("a.jpg", finalCaption "cat" "tag1, cat") ∈
      (qualifyingImages ["a.jpg"]).filterMap (okEntry (constOracle "tag1, cat") "cat")
    ∧ (generate (constOracle "tag1, cat") "cat" ⟨some ["a.jpg"], none⟩).1 =
        Resp.ok ((qualifyingImages ["a.jpg"]).filterMap (okEntry (constOracle "tag1, cat") "cat"))
          ((qualifyingImages ["a.jpg"]).filterMap (errEntry (constOracle "tag1, cat") "cat"))
    ∧ (batch (constOracle "tag1, cat") "cat" none ⟨some ["a.jpg"], none⟩).1 =
        (generate (constOracle "tag1, cat") "cat" ⟨some ["a.jpg"], none⟩).1
    ∧ finalCaption "cat" "tag1, cat" = "tag1, cat, cat"
    ∧ ("a.txt", finalCaption "cat" "tag1, cat") ∈
        ((generate (constOracle "tag1, cat") "cat" ⟨some ["a.jpg"], none⟩).2.results.getD []) := by
  have h := C5_generation_caption (constOracle "tag1, cat") "cat" ⟨some ["a.jpg"], none⟩
    ["a.jpg"] "a.jpg" "tag1, cat" rfl (by decide) rfl
  exact ⟨h.1, h.2.1, h.2.2.1, by decide, h.2.2.2.2 (by decide) (by decide)⟩

/-- C1 counterexample: two images that share the basename `a` (different
extensions) in a session whose results directory starts empty; the run
completes with no per-file failure, yet only one caption file exists afterward
while N = 2. -/
theorem C1_counterexample :
    (qualifyingImages ["a.jpg", "a.png"]).length = 2
    ∧ (generate (constOracle "cap") "" ⟨some ["a.jpg", "a.png"], some []⟩).2.results =
        some [("a.txt", "cap")]
    ∧ ((([("a.txt", "cap")] : Dir).map Prod.fst).filter isTxtFile).length = 1
    ∧ (1 : Nat) ≠ 2 :=
  ⟨by decide, by decide, by decide, by decide⟩

/-- C1 (amended): when the image basenames are pairwise distinct and the
results directory starts with no `.txt` file, a run of the batch caption
processor with no per-file failure leaves exactly N caption files — the list of
`.txt` names in the results directory is exactly `<basename>.txt` for the N
qualifying images, in order. -/
theorem C1_caption_count (oracle : String → Except String String) (gt : String)
    (fs : SessionFS) (up : List String)
    (hup : fs.uploads = some up)
    (hfresh : ∀ m ∈ (fs.results.getD []).map Prod.fst, isTxtFile m = false)
    (hnodup : ((qualifyingImages up).map txtName).Nodup)
    (hok : ∀ f ∈ qualifyingImages up, ∃ c, oracle f = .ok c) :
    ∃ d, (generate oracle gt fs).2.results = some d
      ∧ (d.map Prod.fst).filter isTxtFile = (qualifyingImages up).map txtName
      ∧ ((d.map Prod.fst).filter isTxtFile).length = (qualifyingImages up).length := by
  have hfresh0 : ((fs.results.getD []).map Prod.fst).filter isTxtFile = [] := by
    rw [List.filter_eq_nil_iff]
    intro m hm
    rw [hfresh m hm]
    simp
  by_cases hz : (qualifyingImages up).length = 0
  · refine ⟨fs.results.getD [], by rw [generate_invalid hup hz], ?_, ?_⟩
    · rw [hfresh0, List.length_eq_zero.mp hz]
      rfl
    · rw [hfresh0, hz]
      rfl
  · have hall : (qualifyingImages up).filter (processedOk oracle gt) = qualifyingImages up := by
      rw [List.filter_eq_self]
      intro g hg
      obtain ⟨c, hc⟩ := hok g hg
      unfold processedOk processFile
      rw [hc]
    have hdisj : ∀ g ∈ qualifyingImages up, ∀ e ∈ fs.results.getD [], e.1 ≠ txtName g := by
      intro g hg e he hcon
      have himg : isImageFile g = true := (List.mem_filter.mp hg).2
      have h1 := hfresh e.1 (List.mem_map_of_mem Prod.fst he)
      rw [hcon, isTxtFile_txtName himg] at h1
      cases h1
    refine ⟨_, by rw [generate_ok hup hz], ?_, ?_⟩
    · rw [foldl_dirStep_fresh oracle gt hnodup hdisj, hall, List.map_append,
        List.filter_append, hfresh0, List.nil_append, List.map_map]
      have hcomp : (qualifyingImages up).map (Prod.fst ∘ fun f => (txtName f, okCaption oracle gt f)) =
          (qualifyingImages up).map txtName :=
        List.map_congr_left (fun g _ => rfl)
      rw [hcomp, List.filter_eq_self]
      intro m hm
      obtain ⟨g, hg, hgm⟩ := List.mem_map.mp hm
      rw [← hgm]
      exact isTxtFile_txtName (List.mem_filter.mp hg).2
    · rw [foldl_dirStep_fresh oracle gt hnodup hdisj, hall, List.map_append,
        List.filter_append, hfresh0, List.nil_append, List.map_map]
      have hcomp : (qualifyingImages up).map (Prod.fst ∘ fun f => (txtName f, okCaption oracle gt f)) =
          (qualifyingImages up).map txtName :=
        List.map_congr_left (fun g _ => rfl)
      rw [hcomp]
      have hsub : ((qualifyingImages up).map txtName).filter isTxtFile =
          (qualifyingImages up).map txtName := by
        rw [List.filter_eq_self]
        intro m hm
        obtain ⟨g, hg, hgm⟩ := List.mem_map.mp hm
        rw [← hgm]
        exact isTxtFile_txtName (List.mem_filter.mp hg).2
      rw [hsub, List.length_map]

/-- Witness for C1 (amended): two images with distinct basenames, fresh results
directory, all-success oracle. -/
theorem C1_caption_count_witness :
    ∃ d, (generate (constOracle "cap") "t" ⟨some ["a.jpg", "b.png"], none⟩).2.results = some d
      ∧ (d.map Prod.fst).filter isTxtFile = (qualifyingImages ["a.jpg", "b.png"]).map txtName
      ∧ ((d.map Prod.fst).filter isTxtFile).length = (qualifyingImages ["a.jpg", "b.png"]).length :=
  C1_caption_count (constOracle "cap") "t" ⟨some ["a.jpg", "b.png"], none⟩ ["a.jpg", "b.png"]
    rfl (by decide) (by decide) (fun f _ => ⟨"cap", rfl⟩)

/-- C10: with a non-empty `fileIndices` array, `batch` processes exactly the
in-range selections `files[i]`, in the order the indices are listed —
out-of-range (including negative) indices are silently dropped — and when every
index is out of range it responds 400 "No image files found to process" and
writes no caption file. -/
theorem C10_batch_file_indices (oracle : String → Except String String) (gt : String)
    (fs : SessionFS) (up : List String) (idxs : List Int)
    (hup : fs.uploads = some up) (hidx : idxs ≠ []) :
    selectIndices (qualifyingImages up) idxs =
      idxs.filterMap (fun i =>
        if 0 ≤ i ∧ i.toNat < (qualifyingImages up).length then
          (qualifyingImages up).get? i.toNat
        else none)
    ∧ (selectIndices (qualifyingImages up) idxs ≠ [] →
        batch oracle gt (some idxs) fs =
          (Resp.ok ((selectIndices (qualifyingImages up) idxs).filterMap (okEntry oracle gt))
            ((selectIndices (qualifyingImages up) idxs).filterMap (errEntry oracle gt)),
           ⟨fs.uploads,
            some ((selectIndices (qualifyingImages up) idxs).foldl (dirStep oracle gt)
              (fs.results.getD []))⟩))
    ∧ (selectIndices (qualifyingImages up) idxs = [] →
        batch oracle gt (some idxs) fs =
          (Resp.badRequest "No image files found to process",
            ⟨fs.uploads, some (fs.results.getD [])⟩)) := by
  refine ⟨?_, ?_, ?_⟩
  · unfold selectIndices
    rw [List.filterMap_map]
    congr 1
    funext i
    show (jsIndex (qualifyingImages up) i).bind (fun s => if s = "" then none else some s) = _
    by_cases hneg : i < 0
    · unfold jsIndex
      rw [if_pos hneg]
      have : ¬ (0 ≤ i ∧ i.toNat < (qualifyingImages up).length) := by
        intro hcon
        omega
      rw [if_neg this]
      rfl
    · unfold jsIndex
      rw [if_neg hneg]
      rcases hget : (qualifyingImages up).get? i.toNat with _ | s
      · have hlen := List.get?_eq_none.mp hget
        have : ¬ (0 ≤ i ∧ i.toNat < (qualifyingImages up).length) := by
          intro hcon
          omega
        rw [if_neg this]
        rfl
      · have hmem := List.get?_mem hget
        have hlen : i.toNat < (qualifyingImages up).length := by
          by_contra hcon
          rw [List.get?_eq_none.mpr (Nat.le_of_not_lt hcon)] at hget
          cases hget
        have hcond : 0 ≤ i ∧ i.toNat < (qualifyingImages up).length :=
          ⟨Int.not_lt.mp hneg, hlen⟩
        rw [if_pos hcond]
        have hsne : s ≠ "" := image_ne_empty (List.mem_filter.mp hmem).2
        show (if s = "" then none else some s) = some s
        rw [if_neg hsne]
  · intro hsel
    exact batch_ok_sel hup hidx (fun hz => hsel (List.length_eq_zero.mp hz))
  · intro hsel
    exact batch_invalid_sel hup hidx (by rw [hsel]; rfl)

/-- Witness for C10: files `a.jpg, b.jpg`; indices `[1, 5, 0]` select
`b.jpg, a.jpg` (5 dropped); index list `[7]` selects nothing and yields the
400 response. -/
theorem C10_batch_file_indices_witness :
    selectIndices (qualifyingImages ["a.jpg", "b.jpg"]) [1, 5, 0] =
      ([1, 5, 0] : List Int).filterMap (fun i =>
        if 0 ≤ i ∧ i.toNat < (qualifyingImages ["a.jpg", "b.jpg"]).length then
          (qualifyingImages ["a.jpg", "b.jpg"]).get? i.toNat
        else none)
    ∧ batch (constOracle "c") "" (some [1, 5, 0]) ⟨some ["a.jpg", "b.jpg"], some []⟩ =
        (Resp.ok ((selectIndices (qualifyingImages ["a.jpg", "b.jpg"]) [1, 5, 0]).filterMap
            (okEntry (constOracle "c") ""))
          ((selectIndices (qualifyingImages ["a.jpg", "b.jpg"]) [1, 5, 0]).filterMap
            (errEntry (constOracle "c") "")),
         ⟨some ["a.jpg", "b.jpg"],
          some ((selectIndices (qualifyingImages ["a.jpg", "b.jpg"]) [1, 5, 0]).foldl
            (dirStep (constOracle "c") "") [])⟩)
    ∧ batch (constOracle "c") "" (some [7]) ⟨some ["a.jpg", "b.jpg"], some []⟩ =
        (Resp.badRequest "No image files found to process",
          ⟨some ["a.jpg", "b.jpg"], some []⟩) := by
  have h1 := C10_batch_file_indices (constOracle "c") "" ⟨some ["a.jpg", "b.jpg"], some []⟩
    ["a.jpg", "b.jpg"] [1, 5, 0] rfl (by decide)
  have h2 := C10_batch_file_indices (constOracle "c") "" ⟨some ["a.jpg", "b.jpg"], some []⟩
    ["a.jpg", "b.jpg"] [7] rfl (by decide)
  exact ⟨h1.1, h1.2.1 (by decide), h2.2.2 (by decide)⟩

/-- Filenames `pre0post, pre1post, …` for a directory of a given size. -/
def rangeNames (k : Nat) (pre post : String) : List String :=
  (List.range k).map (fun i => pre ++ toString i ++ post)

/-- A session with 100 images and 29 caption files. -/
def fsC4 : SessionFS :=
  ⟨some (rangeNames 100 "i" ".jpg"), some ((rangeNames 29 "c" ".txt").map (fun n => (n, "cap")))⟩

/-- C4 counterexample: with 100 images and 29 captions the status endpoint
reports progress 28, because JavaScript evaluates `(29/100)*100` in binary64 as
`28.999999999999996`, while `floor(100*29/100)` is 29. -/
theorem C4_status_counterexample :
    captionStatus fsC4 = some ⟨100, 29, 28, false⟩
    ∧ 100 * 29 / 100 = 29
    ∧ (28 : Nat) ≠ 29 :=
  ⟨by decide, by decide, by decide⟩

/-- C4 (amended): the status endpoint recomputes counts from the directories;
progress is 0 when there are no images (no divide-by-zero) and otherwise is the
floor of the IEEE-754 binary64 evaluation of `(captionCount/imageCount)*100` —
which agrees with `floor(100*captionCount/imageCount)` for all small
directories (any `imageCount ≤ 32`) but can be one less in general — and
`isComplete` is exactly `captionCount ≥ imageCount && imageCount > 0`. -/
theorem C4_status (fs : SessionFS) (up : List String) (hup : fs.uploads = some up) :
    captionStatus fs = some
      { totalImages := (qualifyingImages up).length
        processedImages := (captionFilesOf fs).length
        progress := if 0 < (qualifyingImages up).length then
            jsProgress (captionFilesOf fs).length (qualifyingImages up).length else 0
        isComplete := decide ((qualifyingImages up).length ≤ (captionFilesOf fs).length) &&
          decide (0 < (qualifyingImages up).length) }
    ∧ ((qualifyingImages up).length = 0 →
        (captionStatus fs).map CapStatus.progress = some 0)
    ∧ (∀ t : Nat, t ≤ 32 → ∀ p : Nat, p ≤ t → jsProgress p t = 100 * p / t) := by
  have h1 : captionStatus fs = some
      { totalImages := (qualifyingImages up).length
        processedImages := (captionFilesOf fs).length
        progress := if 0 < (qualifyingImages up).length then
            jsProgress (captionFilesOf fs).length (qualifyingImages up).length else 0
        isComplete := decide ((qualifyingImages up).length ≤ (captionFilesOf fs).length) &&
          decide (0 < (qualifyingImages up).length) } := by
    unfold captionStatus captionFilesOf
    rw [hup]
  refine ⟨h1, ?_, by decide⟩
  intro hz
  rw [h1, hz]
  simp

/-- Witness for C4 (amended) on a session with two images, one caption. -/
theorem C4_status_witness :
    captionStatus ⟨some ["a.jpg", "b.jpg"], some [("a.txt", "x")]⟩ = some
      { totalImages := (qualifyingImages ["a.jpg", "b.jpg"]).length
        processedImages :=
          (captionFilesOf ⟨some ["a.jpg", "b.jpg"], some [("a.txt", "x")]⟩).length
        progress := if 0 < (qualifyingImages ["a.jpg", "b.jpg"]).length then
            jsProgress (captionFilesOf ⟨some ["a.jpg", "b.jpg"], some [("a.txt", "x")]⟩).length
              (qualifyingImages ["a.jpg", "b.jpg"]).length else 0
        isComplete := decide ((qualifyingImages ["a.jpg", "b.jpg"]).length ≤
            (captionFilesOf ⟨some ["a.jpg", "b.jpg"], some [("a.txt", "x")]⟩).length) &&
          decide (0 < (qualifyingImages ["a.jpg", "b.jpg"]).length) }
    ∧ (captionStatus ⟨some ["readme.md"], none⟩).map CapStatus.progress = some 0
    ∧ (∀ t : Nat, t ≤ 32 → ∀ p : Nat, p ≤ t → jsProgress p t = 100 * p / t) := by
  have h1 := C4_status ⟨some ["a.jpg", "b.jpg"], some [("a.txt", "x")]⟩ ["a.jpg", "b.jpg"] rfl
  have h2 := C4_status ⟨some ["readme.md"], none⟩ ["readme.md"] rfl
  exact ⟨h1.1, h2.2.1 (by decide), h1.2.2⟩

/-! ### The download packager -/

theorem captionLookup_mem {caps : List String} {b cf : String}
    (h : captionLookup caps b = some cf) : cf ∈ caps ∧ parseNameOf cf = b := by
  unfold captionLookup at h
  have hmem := List.mem_of_getLast?_eq_some h
  have h2 := List.mem_filter.mp hmem
  exact ⟨h2.1, of_decide_eq_true h2.2⟩

theorem captionLookup_unique {caps : List String} {b cf : String}
    (hnodup : (caps.map parseNameOf).Nodup) (hmem : cf ∈ caps)
    (hb : parseNameOf cf = b) : captionLookup caps b = some cf := by
  induction caps with
  | nil => cases hmem
  | cons c rest ih =>
    rw [List.map_cons, List.nodup_cons] at hnodup
    rcases List.mem_cons.mp hmem with h | h
    · subst h
      unfold captionLookup
      rw [List.filter_cons]
      have hpred : decide (parseNameOf cf = b) = true := decide_eq_true hb
      rw [if_pos hpred]
      have hrest : rest.filter (fun x => parseNameOf x = b) = [] := by
        rw [List.filter_eq_nil_iff]
        intro x hx hcon
        have hxb : parseNameOf x = b := of_decide_eq_true hcon
        exact hnodup.1 (by rw [hb, ← hxb]; exact List.mem_map_of_mem parseNameOf hx)
      rw [hrest]
      rfl
    · have hcnb : ¬ (parseNameOf c = b) := by
        intro hcb
        exact hnodup.1 (by rw [hcb, ← hb]; exact List.mem_map_of_mem parseNameOf h)
      unfold captionLookup
      rw [List.filter_cons, if_neg (by simpa using hcnb)]
      exact ih hnodup.2 h

/-- C9: for a session with upload directory present (and caption basenames not
colliding), the zip entry set of `GET /api/download/all` is: for
`format=separate` exactly `images/<f>` for on-disk images plus `captions/<c>`
for on-disk captions; for `format=flat` exactly those filenames with no
directory prefix; for `format=paired` one directory per image basename holding
the image and, when a caption with matching basename exists, that caption. -/
theorem C9_zip_entries (fs : SessionFS) (up : List String)
    (hup : fs.uploads = some up)
    (hnodup : ((captionFilesOf fs).map parseNameOf).Nodup) :
    (∃ L, zipEntries "separate" fs = some L ∧ ∀ e, e ∈ L ↔
      ((∃ f ∈ qualifyingImages up, e = "images/" ++ f) ∨
       (∃ cf ∈ captionFilesOf fs, e = "captions/" ++ cf)))
    ∧ (∃ L, zipEntries "flat" fs = some L ∧ ∀ e, e ∈ L ↔
      (e ∈ qualifyingImages up ∨ e ∈ captionFilesOf fs))
    ∧ (∃ L, zipEntries "paired" fs = some L ∧ ∀ e, e ∈ L ↔
      (∃ f ∈ qualifyingImages up, e = parseNameOf f ++ "/" ++ f ∨
        (∃ cf ∈ captionFilesOf fs, parseNameOf cf = parseNameOf f ∧
          e = parseNameOf f ++ "/" ++ cf))) := by
  have hsep : zipEntries "separate" fs =
      some ((qualifyingImages up).map (fun f => "images/" ++ f) ++
        (captionFilesOf fs).map (fun f => "captions/" ++ f)) := by
    unfold zipEntries
    rw [hup]
    rfl
  have hflat : zipEntries "flat" fs = some (qualifyingImages up ++ captionFilesOf fs) := by
    unfold zipEntries
    rw [hup]
    rfl
  have hpair : zipEntries "paired" fs =
      some ((qualifyingImages up).flatMap (fun f =>
        (parseNameOf f ++ "/" ++ f) ::
          (match captionLookup (captionFilesOf fs) (parseNameOf f) with
           | some cf => [parseNameOf f ++ "/" ++ cf]
           | none => []))) := by
    unfold zipEntries
    rw [hup]
    rfl
  refine ⟨⟨_, hsep, ?_⟩, ⟨_, hflat, ?_⟩, ⟨_, hpair, ?_⟩⟩
  · intro e
    simp only [List.mem_append, List.mem_map]
    constructor
    · rintro (⟨f, hf, he⟩ | ⟨cf, hcf, he⟩)
      · exact Or.inl ⟨f, hf, he.symm⟩
      · exact Or.inr ⟨cf, hcf, he.symm⟩
    · rintro (⟨f, hf, he⟩ | ⟨cf, hcf, he⟩)
      · exact Or.inl ⟨f, hf, he.symm⟩
      · exact Or.inr ⟨cf, hcf, he.symm⟩
  · intro e
    exact List.mem_append
  · intro e
    rw [List.mem_flatMap]
    constructor
    · rintro ⟨f, hf, he⟩
      refine ⟨f, hf, ?_⟩
      rcases List.mem_cons.mp he with h | h
      · exact Or.inl h
      · rcases hcl : captionLookup (captionFilesOf fs) (parseNameOf f) with _ | cf
        · rw [hcl] at h
          cases h
        · rw [hcl] at h
          have hcf := captionLookup_mem hcl
          exact Or.inr ⟨cf, hcf.1, hcf.2, List.mem_singleton.mp h⟩
    · rintro ⟨f, hf, he | ⟨cf, hcf, hbase, he⟩⟩
      · exact ⟨f, hf, by rw [he]; exact List.mem_cons_self _ _⟩
      · refine ⟨f, hf, ?_⟩
        rw [captionLookup_unique hnodup hcf hbase]
        exact List.mem_cons_of_mem _ (List.mem_singleton.mpr he)

/-- Witness for C9: one image `a.jpg` and one caption `a.txt`. -/
theorem C9_zip_entries_witness :
    (∃ L, zipEntries "separate" ⟨some ["a.jpg"], some [("a.txt", "c")]⟩ = some L ∧ ∀ e, e ∈ L ↔
      ((∃ f ∈ qualifyingImages ["a.jpg"], e = "images/" ++ f) ∨
       (∃ cf ∈ captionFilesOf ⟨some ["a.jpg"], some [("a.txt", "c")]⟩, e = "captions/" ++ cf)))
    ∧ (∃ L, zipEntries "flat" ⟨some ["a.jpg"], some [("a.txt", "c")]⟩ = some L ∧ ∀ e, e ∈ L ↔
      (e ∈ qualifyingImages ["a.jpg"] ∨ e ∈ captionFilesOf ⟨some ["a.jpg"], some [("a.txt", "c")]⟩))
    ∧ (∃ L, zipEntries "paired" ⟨some ["a.jpg"], some [("a.txt", "c")]⟩ = some L ∧ ∀ e, e ∈ L ↔
      (∃ f ∈ qualifyingImages ["a.jpg"], e = parseNameOf f ++ "/" ++ f ∨
        (∃ cf ∈ captionFilesOf ⟨some ["a.jpg"], some [("a.txt", "c")]⟩,
          parseNameOf cf = parseNameOf f ∧ e = parseNameOf f ++ "/" ++ cf))) :=
  C9_zip_entries ⟨some ["a.jpg"], some [("a.txt", "c")]⟩ ["a.jpg"] rfl (by decide)

end Tagger
